import Mathlib

/-!
# Verification of tiny-db storages

A shallow embedding of `src/tiny-db/storages.cpp`: the `touch` file
initializer, the `JSONStorage` constructor, `read`, `write` and `close`
operations, and the `MemoryStorage` backend.  File contents are modelled as
character lists, the filesystem as association lists of files and a list of
existing directories.

The third-party JSON library (`json.hpp`, nlohmann) is not part of the
repository sources; following the specification it is treated as an external
collaborator exposing `serialize` (pretty-printing with 4-space indentation)
and `parse` (failing on malformed input).  Both are modelled concretely below
and a printer/parser round-trip theorem is proved, so that the storage-level
claims need no unproven assumptions about the collaborator.
-/

namespace TinyDb

/-- Strings of the modelled program are character lists. -/
abbrev Str := List Char

/-- JSON values as used by the dataset: null, booleans, numbers (modelled as
integers), strings, arrays and objects.  Modelled from the spec: the data
model of `json.hpp` is not part of `src/`; §3 of the spec lists the value
kinds (string, number, boolean, null, array, object). -/
inductive Json where
  | null : Json
  | bool : Bool → Json
  | num : Int → Json
  | str : Str → Json
  | arr : List Json → Json
  | obj : List (Str × Json) → Json
deriving Repr

/-- A dataset: a mapping from string key to a nested mapping from string
sub-key to a JSON value (`unordered_map<string, unordered_map<string, json>>`
in the source).  Modelled as an association list. -/
abbrev Dataset := List (Str × List (Str × Json))

/-- Convert a dataset to its JSON document (the `json j = data;` conversion
in `JSONStorage::write`). -/
def toJson (d : Dataset) : Json :=
  .obj (d.map fun e => (e.1, .obj e.2))

/-- Decode a JSON document into the dataset shape
(`j.get<unordered_map<string, unordered_map<string, json>>>()` in
`JSONStorage::read`); fails when the document is not a two-level mapping. -/
def ofJson : Json → Option Dataset
  | .obj l =>
    l.mapM fun e =>
      match e.2 with
      | .obj sub => some (e.1, sub)
      | _ => none
  | _ => none

/-! ## Serialization (spec-modelled collaborator) -/

/-- Indentation: `n` space characters. -/
def spaces (n : Nat) : List Char := List.replicate n ' '

/-- Whitespace characters skipped between JSON tokens. -/
def isWs (c : Char) : Bool := decide (c.toNat = 32 ∨ c.toNat = 10 ∨ c.toNat = 9 ∨ c.toNat = 13)

/-- Drop leading whitespace. -/
def skipWs : List Char → List Char
  | [] => []
  | c :: cs => if isWs c then skipWs cs else c :: cs

/-- Decimal digit character for `n < 10`. -/
def digitChar (n : Nat) : Char := Char.ofNat (48 + n)

/-- Lowercase hexadecimal digit character for `n < 16`. -/
def hexDigit (n : Nat) : Char := if n < 10 then Char.ofNat (48 + n) else Char.ofNat (87 + n)

/-- Digit test on code points. -/
def isDigit (c : Char) : Bool := decide (48 ≤ c.toNat ∧ c.toNat ≤ 57)

/-- Decimal digits, fuelled helper: peels the least significant digit onto the
accumulator; `fuel` bounds the number of digits. -/
def natToCharsAux : Nat → Nat → List Char → List Char
  | 0, _, acc => acc
  | fuel + 1, n, acc =>
    if n < 10 then digitChar n :: acc
    else natToCharsAux fuel (n / 10) (digitChar (n % 10) :: acc)

/-- Decimal digits of a natural number, most significant first. -/
def natToChars (n : Nat) : List Char := natToCharsAux (n + 1) n []

/-- Decimal rendering of an integer. -/
def intToChars (i : Int) : List Char :=
  if i < 0 then '-' :: natToChars i.natAbs else natToChars i.toNat

/-- Escape one character of a JSON string, following the collaborator's
serializer: quote, backslash and the named control characters get two-byte
escapes, the remaining control characters get `\u00xx`, everything else is
emitted verbatim. -/
def escapeChar (c : Char) : List Char :=
  if c = '"' then ['\\', '"']
  else if c = '\\' then ['\\', '\\']
  else if c = '\x08' then ['\\', 'b']
  else if c = '\x0c' then ['\\', 'f']
  else if c = '\n' then ['\\', 'n']
  else if c = '\r' then ['\\', 'r']
  else if c = '\t' then ['\\', 't']
  else if c.toNat < 32 then ['\\', 'u', '0', '0', hexDigit (c.toNat / 16), hexDigit (c.toNat % 16)]
  else [c]

/-- Escape a whole string body. -/
def escapeStr (s : Str) : List Char := (s.map escapeChar).flatten

/-- Serialize a JSON string literal, quotes included. -/
def dumpStr (s : Str) : List Char := '"' :: (escapeStr s ++ ['"'])

mutual

/-- Serialize a JSON value with 4-space pretty printing (`j.dump(4)` of the
collaborator) at current indentation `i`.  Modelled from the spec: §6 fixes
"pretty-printed with 4-space indentation"; the precise layout follows the
collaborator's documented format. -/
def dumpJ : Json → Nat → List Char
  | .null, _ => ['n', 'u', 'l', 'l']
  | .bool true, _ => ['t', 'r', 'u', 'e']
  | .bool false, _ => ['f', 'a', 'l', 's', 'e']
  | .num i, _ => intToChars i
  | .str s, _ => dumpStr s
  | .arr [], _ => ['[', ']']
  | .arr (v :: t), i =>
    '[' :: '\n' :: (dumpElems (v :: t) (i + 4) ++ '\n' :: (spaces i ++ [']']))
  | .obj [], _ => ['{', '}']
  | .obj (e :: t), i =>
    '{' :: '\n' :: (dumpFields (e :: t) (i + 4) ++ '\n' :: (spaces i ++ ['}']))

/-- Serialize the comma-separated element lines of a non-empty array. -/
def dumpElems : List Json → Nat → List Char
  | [], _ => []
  | [v], i => spaces i ++ dumpJ v i
  | v :: v' :: t, i =>
    spaces i ++ dumpJ v i ++ ',' :: '\n' :: dumpElems (v' :: t) i

/-- Serialize the comma-separated member lines of a non-empty object. -/
def dumpFields : List (Str × Json) → Nat → List Char
  | [], _ => []
  | [(k, v)], i => spaces i ++ (dumpStr k ++ ':' :: ' ' :: dumpJ v i)
  | (k, v) :: e :: t, i =>
    spaces i ++ (dumpStr k ++ ':' :: ' ' :: dumpJ v i) ++ ',' :: '\n' :: dumpFields (e :: t) i

end

/-- Serialize a dataset the way `JSONStorage::write` does: convert to a JSON
document and pretty-print it with indent 4. -/
def dumpDataset (d : Dataset) : List Char := dumpJ (toJson d) 0

/-! ## Parsing (spec-modelled collaborator) -/

/-- Value of a hexadecimal digit character. -/
def hexVal (c : Char) : Option Nat :=
  if 48 ≤ c.toNat ∧ c.toNat ≤ 57 then some (c.toNat - 48)
  else if 97 ≤ c.toNat ∧ c.toNat ≤ 102 then some (c.toNat - 87)
  else none

/-- Parse the body of a JSON string literal (after the opening quote) up to
and including the closing quote, undoing escapes; returns the decoded string
and the remaining input. -/
def parseStrBody : List Char → Option (Str × List Char)
  | [] => none
  | c :: cs =>
    if c = '"' then some ([], cs)
    else if c = '\\' then
      match cs with
      | [] => none
      | e :: cs2 =>
        if e = '"' then Option.map (fun p => ('"' :: p.1, p.2)) (parseStrBody cs2)
        else if e = '\\' then Option.map (fun p => ('\\' :: p.1, p.2)) (parseStrBody cs2)
        else if e = '/' then Option.map (fun p => ('/' :: p.1, p.2)) (parseStrBody cs2)
        else if e = 'b' then Option.map (fun p => ('\x08' :: p.1, p.2)) (parseStrBody cs2)
        else if e = 'f' then Option.map (fun p => ('\x0c' :: p.1, p.2)) (parseStrBody cs2)
        else if e = 'n' then Option.map (fun p => ('\n' :: p.1, p.2)) (parseStrBody cs2)
        else if e = 'r' then Option.map (fun p => ('\r' :: p.1, p.2)) (parseStrBody cs2)
        else if e = 't' then Option.map (fun p => ('\t' :: p.1, p.2)) (parseStrBody cs2)
        else if e = 'u' then
          match cs2 with
          | h1 :: h2 :: h3 :: h4 :: cs3 =>
            match hexVal h1, hexVal h2, hexVal h3, hexVal h4 with
            | some a, some b, some c3, some d =>
              Option.map
                (fun p => (Char.ofNat (((a * 16 + b) * 16 + c3) * 16 + d) :: p.1, p.2))
                (parseStrBody cs3)
            | _, _, _, _ => none
          | _ => none
        else none
    else Option.map (fun p => (c :: p.1, p.2)) (parseStrBody cs)

/-- Accumulate a run of decimal digits; stops at the first non-digit. -/
def parseDigits (acc : Nat) : List Char → Nat × List Char
  | [] => (acc, [])
  | c :: cs =>
    if isDigit c then parseDigits (acc * 10 + (c.toNat - 48)) cs else (acc, c :: cs)

mutual

/-- Parse one JSON value (fuelled recursive-descent; the fuel bounds nesting
depth and is sized from the input length at the top level). -/
def parseVal : Nat → List Char → Option (Json × List Char)
  | 0, _ => none
  | f + 1, cs0 =>
    match skipWs cs0 with
    | [] => none
    | c :: cs =>
      if c = '{' then
        match skipWs cs with
        | [] => none
        | c2 :: cs2 =>
          if c2 = '}' then some (.obj [], cs2)
          else Option.map (fun p => (Json.obj p.1, p.2)) (parseFields f (c2 :: cs2))
      else if c = '[' then
        match skipWs cs with
        | [] => none
        | c2 :: cs2 =>
          if c2 = ']' then some (.arr [], cs2)
          else Option.map (fun p => (Json.arr p.1, p.2)) (parseElems f (c2 :: cs2))
      else if c = '"' then
        Option.map (fun p => (Json.str p.1, p.2)) (parseStrBody cs)
      else if c = 'n' then
        match cs with
        | 'u' :: 'l' :: 'l' :: r => some (.null, r)
        | _ => none
      else if c = 't' then
        match cs with
        | 'r' :: 'u' :: 'e' :: r => some (.bool true, r)
        | _ => none
      else if c = 'f' then
        match cs with
        | 'a' :: 'l' :: 's' :: 'e' :: r => some (.bool false, r)
        | _ => none
      else if c = '-' then
        match cs with
        | c2 :: cs2 =>
          if isDigit c2 then
            let p := parseDigits 0 (c2 :: cs2)
            some (.num (-(p.1 : Int)), p.2)
          else none
        | [] => none
      else if isDigit c then
        let p := parseDigits 0 (c :: cs)
        some (.num (p.1 : Int), p.2)
      else none

/-- Parse the members of a non-empty object, starting at the first key,
up to and including the closing brace. -/
def parseFields : Nat → List Char → Option (List (Str × Json) × List Char)
  | 0, _ => none
  | f + 1, cs0 =>
    match cs0 with
    | '"' :: cs =>
      match parseStrBody cs with
      | none => none
      | some (k, r1) =>
        match skipWs r1 with
        | ':' :: r2 =>
          match parseVal f r2 with
          | none => none
          | some (v, r3) =>
            match skipWs r3 with
            | ',' :: r4 =>
              Option.map (fun p => ((k, v) :: p.1, p.2)) (parseFields f (skipWs r4))
            | '}' :: r4 => some ([(k, v)], r4)
            | _ => none
        | _ => none
    | _ => none

/-- Parse the elements of a non-empty array, starting at the first element,
up to and including the closing bracket. -/
def parseElems : Nat → List Char → Option (List Json × List Char)
  | 0, _ => none
  | f + 1, cs0 =>
    match parseVal f cs0 with
    | none => none
    | some (v, r1) =>
      match skipWs r1 with
      | ',' :: r2 => Option.map (fun p => (v :: p.1, p.2)) (parseElems f (skipWs r2))
      | ']' :: r2 => some ([v], r2)
      | _ => none

end

/-- Parse a whole input as one JSON document: leading and trailing whitespace
is allowed, anything else after the document is malformed.  Modelled from the
spec: §6 "parse(text) -> JSONValue fails on malformed input". -/
def parseDoc (cs : List Char) : Option Json :=
  match parseVal (cs.length + 1) cs with
  | some (j, rest) => if skipWs rest = [] then some j else none
  | none => none

/-- Parse file content into a dataset: textual JSON parse followed by the
two-level-mapping decode; `none` is the `ParseError` outcome of
`JSONStorage::read`. -/
def parseDataset (cs : List Char) : Option Dataset :=
  match parseDoc cs with
  | some j => ofJson j
  | none => none

/-! ## Filesystem model

File contents are character lists; the filesystem records the files (path to
content) and the set of existing directories.  This models the POSIX
collaborator used by `storages.cpp` (`stat`, `mkdir -p`, stream opens). -/

/-- Error taxonomy of the spec (§7): `std::invalid_argument`,
`std::runtime_error` on file I/O, and JSON parse failures. -/
inductive Err where
  | invalidArgument : Err
  | ioError : Err
  | parseError : Err
deriving Repr, DecidableEq

/-- A filesystem: files as an association list from path to content, plus the
existing directories. -/
structure FS where
  files : List (String × List Char)
  dirs : List String
deriving Repr, DecidableEq

/-- Content of the file at `p`, if a file exists there. -/
def FS.getFile (fs : FS) (p : String) : Option (List Char) :=
  fs.files.lookup p

/-- Replace (or create) the file at `p` with content `c`. -/
def FS.setFile (fs : FS) (p : String) (c : List Char) : FS :=
  { fs with files := (p, c) :: fs.files.filter (fun e => e.1 ≠ p) }

/-- Does a directory exist at `p`? -/
def FS.dirExists (fs : FS) (p : String) : Bool := decide (p ∈ fs.dirs)

/-- Does a file exist at `p`? -/
def FS.fileExists (fs : FS) (p : String) : Bool := (fs.getFile p).isSome

/-- Does `stat` succeed at `p` (file or directory present)? -/
def FS.statOk (fs : FS) (p : String) : Bool := fs.fileExists p || fs.dirExists p

/-- Is `c` a path separator?  `find_last_of("/\\")` in the source looks for
both the forward slash and the backslash. -/
def isSep (c : Char) : Bool := c = '/' || c = '\\'

/-- Index of the last separator of the path, `none` when there is none
(`std::string::find_last_of` returning `npos`). -/
def lastSepIdx : List Char → Option Nat
  | [] => none
  | c :: t =>
    match lastSepIdx t with
    | some i => some (i + 1)
    | none => if isSep c then some 0 else none

/-- The `base_dir = path.substr(0, path.find_last_of("/\\"))` computation of
`touch`: everything before the last separator — and, `substr(0, npos)` being
the whole string, the path itself when it has no separator. -/
def baseDir (p : String) : String :=
  match lastSepIdx p.data with
  | some i => String.mk (p.data.take i)
  | none => p

/-- The directories `mkdir -p d` creates: every prefix of `d` that ends just
before a separator, and `d` itself; a component where a file already exists
cannot be created as a directory. -/
def ancestors (d : String) : List String :=
  ((List.range d.data.length).filterMap fun i =>
    if isSep (d.data.getD i ' ') then some (String.mk (d.data.take i)) else none) ++ [d]

/-- Effect of `std::system("mkdir -p " + d)` on the filesystem (the source
ignores the command's exit status). -/
def FS.mkdirp (fs : FS) (d : String) : FS :=
  { fs with dirs := (ancestors d).filter (fun a => ¬ fs.fileExists a) ++ fs.dirs }

/-- The POSIX parent of a path: the prefix before the last separator, or the
(always existing) current directory when there is no separator. -/
def parentOk (fs : FS) (p : String) : Bool :=
  match lastSepIdx p.data with
  | some i => fs.dirExists (String.mk (p.data.take i))
  | none => true

/-- Opening a file in append mode (`std::ofstream(path, std::ios::app)`):
fails when a directory sits at the path, keeps an existing file unchanged,
creates an empty file when the parent directory exists. -/
def openAppend (fs : FS) (p : String) : Except Err FS :=
  if fs.dirExists p then .error .ioError
  else if fs.fileExists p then .ok fs
  else if parentOk fs p then .ok (fs.setFile p [])
  else .error .ioError

/-! ## touch -/

/-- The `touch` helper of `storages.cpp`: with `create_dirs`, computes
`base_dir` and runs `mkdir -p` when `stat` fails there; then opens the path
in append mode and immediately closes it, throwing on failure.  Returns the
outcome together with the filesystem, whose mutations persist even when the
open throws. -/
def touch (path : String) (create_dirs : Bool) (fs : FS) : Except Err Unit × FS :=
  let fs1 :=
    if create_dirs then
      if ¬ fs.statOk (baseDir path) then fs.mkdirp (baseDir path) else fs
    else fs
  match openAppend fs1 path with
  | .ok fs2 => (.ok (), fs2)
  | .error e => (.error e, fs1)

/-! ## JSONStorage -/

/-- A `JSONStorage` handle: the stored path and access mode, and whether the
`std::fstream` member currently holds an open file. -/
structure JS where
  path : String
  mode : String
  isOpen : Bool
deriving Repr, DecidableEq

/-- Is the access mode one of the four recognized values? -/
def validMode (m : String) : Bool :=
  m = "r" || m = "r+" || m = "rb" || m = "rb+"

/-- Does the mode string signal write/append intent
(`access_mode.find_first_of("+wa") != npos`)? -/
def wantsWrite (m : String) : Bool :=
  m.data.any fun c => c = '+' || c = 'w' || c = 'a'

/-- `JSONStorage::openFile`: all four `modeToOpenMode` translations open
without `trunc` or `app`, so the open succeeds exactly when a file already
exists at the path. -/
def openFile (path : String) (fs : FS) : Except Err Unit :=
  if fs.fileExists path then .ok () else .error .ioError

/-- The `JSONStorage` constructor: validates the access mode, touches the
file when the mode signals write/append intent, then opens the handle.
Returns the outcome together with the filesystem (mutations before a throw
persist). -/
def jsNew (path : String) (create_dirs : Bool) (access_mode : String) (fs : FS) :
    Except Err JS × FS :=
  if ¬ validMode access_mode then (.error .invalidArgument, fs)
  else
    let t := if wantsWrite access_mode then touch path create_dirs fs else (.ok (), fs)
    match t with
    | (.error e, fs1) => (.error e, fs1)
    | (.ok _, fs1) =>
      match openFile path fs1 with
      | .ok _ => (.ok ⟨path, access_mode, true⟩, fs1)
      | .error e => (.error e, fs1)

/-- `JSONStorage::read`: seek to the end to get the size; an empty file is
the absent-dataset success case; otherwise parse the whole content and decode
the two-level mapping, `ParseError` on failure. -/
def jsRead (h : JS) (fs : FS) : Except Err (Option Dataset) :=
  let c := (fs.getFile h.path).getD []
  if c.length = 0 then .ok none
  else
    match parseDataset c with
    | some d => .ok (some d)
    | none => .error .parseError

/-- `JSONStorage::write`: seek to position zero and write the pretty-printed
serialization starting there, leaving whatever of the prior content extends
beyond it untouched; then flush, close and reopen.  (The model has no disk
write failures, so the `handle_.bad()` throw never fires, and the reopen
succeeds since the file exists.) -/
def jsWrite (h : JS) (fs : FS) (d : Dataset) : JS × FS :=
  let old := (fs.getFile h.path).getD []
  let out := dumpDataset d
  ({ h with isOpen := true }, fs.setFile h.path (out ++ old.drop out.length))

/-- `JSONStorage::close`: closes the handle if it is open, does nothing
otherwise. -/
def jsClose (h : JS) : JS :=
  if h.isOpen then { h with isOpen := false } else h

/-! ## MemoryStorage -/

/-- `MemoryStorage` state: the optional held snapshot. -/
abbrev Mem := Option Dataset

/-- A fresh `MemoryStorage` holds no dataset. -/
def memInit : Mem := none

/-- `MemoryStorage::read` returns the held snapshot. -/
def memRead (m : Mem) : Option Dataset := m

/-- `MemoryStorage::write` replaces the snapshot unconditionally. -/
def memWrite (_m : Mem) (d : Dataset) : Mem := some d

/-! ## Auxiliary definitions for the verification -/

/-- Strings whose characters are all whitespace. -/
def allWs (cs : List Char) : Prop := ∀ c ∈ cs, isWs c = true

/-- The digit-run accumulator of `parseDigits`. -/
def digitVal (a : Nat) (ds : List Char) : Nat :=
  ds.foldl (fun acc c => acc * 10 + (c.toNat - 48)) a

mutual

/-- Fuel weight of a JSON value: enough parser fuel to parse its printing. -/
def weight : Json → Nat
  | .null => 1
  | .bool _ => 1
  | .num _ => 1
  | .str _ => 1
  | .arr xs => 1 + weightL xs
  | .obj fs => 1 + weightF fs

/-- Fuel weight of array elements. -/
def weightL : List Json → Nat
  | [] => 1
  | x :: t => 1 + weight x + weightL t

/-- Fuel weight of object members. -/
def weightF : List (Str × Json) → Nat
  | [] => 1
  | e :: t => 1 + weight e.2 + weightF t

end

/-- Context restriction for the printer/parser round trip: after a printed
number the input may not continue with a digit (true of every context the
printer produces). -/
def numOk : Json → List Char → Prop
  | .num _, rest => ∀ c, rest.head? = some c → isDigit c = false
  | _, _ => True

/-! ## Character and whitespace lemmas -/

theorem toNat_ofNat_lt {n : Nat} (h : n < 55296) : (Char.ofNat n).toNat = n := by
  rw [Char.ofNat, dif_pos (Or.inl h : Nat.isValidChar n)]
  rfl

theorem digitChar_toNat {n : Nat} (h : n < 10) : (digitChar n).toNat = 48 + n :=
  toNat_ofNat_lt (by omega)

theorem isDigit_digitChar {n : Nat} (h : n < 10) : isDigit (digitChar n) = true := by
  simp only [isDigit, digitChar_toNat h, decide_eq_true_eq]
  omega

theorem ne_of_toNat_ne {c d : Char} (h : c.toNat ≠ d.toNat) : c ≠ d :=
  fun he => h (congrArg Char.toNat he)

theorem isWs_false_iff {c : Char} :
    isWs c = false ↔ (c.toNat ≠ 32 ∧ c.toNat ≠ 10 ∧ c.toNat ≠ 9 ∧ c.toNat ≠ 13) := by
  simp only [isWs, decide_eq_false_iff_not]
  tauto

theorem skipWs_cons_ws {c : Char} (h : isWs c = true) (cs : List Char) :
    skipWs (c :: cs) = skipWs cs := by
  simp [skipWs, h]

theorem skipWs_cons_not_ws {c : Char} (h : isWs c = false) (cs : List Char) :
    skipWs (c :: cs) = c :: cs := by
  simp [skipWs, h]

theorem skipWs_spaces_append (n : Nat) (cs : List Char) :
    skipWs (spaces n ++ cs) = skipWs cs := by
  induction n with
  | zero => simp [spaces]
  | succ k ih =>
    simpa [spaces, List.replicate_succ, skipWs] using ih

theorem skipWs_eq_nil_of_allWs {cs : List Char} (h : allWs cs) : skipWs cs = [] := by
  induction cs with
  | nil => rfl
  | cons c t ih =>
    rw [skipWs_cons_ws (h c (by simp))]
    exact ih fun x hx => h x (by simp [hx])

theorem skipWs_ne_nil_of_mem_not_ws {cs : List Char} {c : Char}
    (hm : c ∈ cs) (hc : isWs c = false) : skipWs cs ≠ [] := by
  induction cs with
  | nil => simp at hm
  | cons a t ih =>
    by_cases ha : isWs a = true
    · rw [skipWs_cons_ws ha]
      rcases List.mem_cons.mp hm with h | h
      · subst h; rw [ha] at hc; cases hc
      · exact ih h
    · rw [skipWs_cons_not_ws (by simpa using ha)]
      simp

/-! ## Decimal digit round-trip -/

theorem natToCharsAux_acc (f : Nat) :
    ∀ (n : Nat) (acc : List Char), natToCharsAux f n acc = natToCharsAux f n [] ++ acc := by
  induction f with
  | zero => intro n acc; simp [natToCharsAux]
  | succ k ih =>
    intro n acc
    by_cases h : n < 10
    · simp [natToCharsAux, h]
    · rw [natToCharsAux, natToCharsAux, if_neg h, if_neg h, ih (n / 10), ih (n / 10) [_]]
      simp

theorem natToCharsAux_fuel (f : Nat) :
    ∀ (f' n : Nat) (acc : List Char), n < 10 ^ f → 1 ≤ f → f ≤ f' →
      natToCharsAux f n acc = natToCharsAux f' n acc := by
  induction f with
  | zero => omega
  | succ k ih =>
    intro f' n acc hn _ hf
    obtain ⟨k', rfl⟩ : ∃ k', f' = k' + 1 := ⟨f' - 1, by omega⟩
    by_cases h : n < 10
    · simp [natToCharsAux, h]
    · rw [natToCharsAux, natToCharsAux, if_neg h, if_neg h]
      have hk : 1 ≤ k := by
        rcases Nat.eq_zero_or_pos k with rfl | hpos
        · simp at hn; omega
        · exact hpos
      exact ih k' (n / 10) _ (by
        have : n < 10 ^ (k + 1) := hn
        rw [pow_succ] at this
        exact Nat.div_lt_of_lt_mul (by omega)) hk (by omega)

theorem natToChars_lt {n : Nat} (h : n < 10) : natToChars n = [digitChar n] := by
  simp [natToChars, natToCharsAux, h]

theorem natToChars_ge {n : Nat} (h : 10 ≤ n) :
    natToChars n = natToChars (n / 10) ++ [digitChar (n % 10)] := by
  rw [natToChars, natToCharsAux, if_neg (by omega)]
  rw [natToCharsAux_acc]
  congr 1
  rw [natToChars]
  refine (natToCharsAux_fuel (n / 10 + 1) n (n / 10) [] ?_ (by omega) (by omega)).symm
  exact lt_of_lt_of_le (Nat.lt_pow_self (by omega) (n / 10))
    (Nat.pow_le_pow_right (by omega) (Nat.le_succ _))

theorem natToChars_ne_nil (n : Nat) : natToChars n ≠ [] := by
  by_cases h : n < 10
  · simp [natToChars_lt h]
  · rw [natToChars_ge (by omega)]
    simp

theorem natToChars_allDigits (n : Nat) : ∀ c ∈ natToChars n, isDigit c = true := by
  induction n using Nat.strong_induction_on with
  | _ n ih =>
    by_cases h : n < 10
    · rw [natToChars_lt h]
      intro c hc
      rw [List.mem_singleton.mp hc]
      exact isDigit_digitChar h
    · rw [natToChars_ge (by omega)]
      intro c hc
      rcases List.mem_append.mp hc with hc | hc
      · exact ih (n / 10) (Nat.div_lt_self (by omega) (by omega)) c hc
      · rw [List.mem_singleton.mp hc]
        exact isDigit_digitChar (Nat.mod_lt _ (by omega))

theorem parseDigits_append {ds : List Char} (hds : ∀ c ∈ ds, isDigit c = true) :
    ∀ (a : Nat) (rest : List Char),
      (∀ c, rest.head? = some c → isDigit c = false) →
      parseDigits a (ds ++ rest) = (digitVal a ds, rest) := by
  induction ds with
  | nil =>
    intro a rest hrest
    cases rest with
    | nil => rfl
    | cons c t =>
      simp only [List.nil_append, parseDigits, digitVal, List.foldl_nil]
      rw [if_neg (by simp [hrest c rfl])]
  | cons d t ih =>
    intro a rest hrest
    rw [List.cons_append]
    simp only [parseDigits]
    rw [if_pos (hds d (by simp))]
    rw [ih (fun c hc => hds c (by simp [hc])) _ rest hrest]
    rfl

theorem digitVal_natToChars (n : Nat) :
    ∀ a : Nat, digitVal a (natToChars n) = a * 10 ^ (natToChars n).length + n := by
  induction n using Nat.strong_induction_on with
  | _ n ih =>
    intro a
    by_cases h : n < 10
    · rw [natToChars_lt h]
      simp [digitVal, digitChar_toNat h]
    · rw [natToChars_ge (by omega)]
      simp only [digitVal, List.foldl_append, List.foldl_cons, List.foldl_nil, List.length_append,
        List.length_singleton]
      rw [show (List.foldl (fun acc c => acc * 10 + (c.toNat - 48)) a (natToChars (n / 10))) =
        digitVal a (natToChars (n / 10)) from rfl]
      rw [ih (n / 10) (Nat.div_lt_self (by omega) (by omega)) a]
      rw [digitChar_toNat (Nat.mod_lt _ (by omega))]
      rw [pow_succ]
      have := Nat.div_add_mod n 10
      ring_nf
      omega

theorem parseDigits_natToChars (n : Nat) {rest : List Char}
    (hrest : ∀ c, rest.head? = some c → isDigit c = false) :
    parseDigits 0 (natToChars n ++ rest) = (n, rest) := by
  rw [parseDigits_append (natToChars_allDigits n) 0 rest hrest]
  rw [digitVal_natToChars]
  simp

/-! ## String-literal round trip -/

theorem hexVal_hexDigit {m : Nat} (h : m < 16) : hexVal (hexDigit m) = some m := by
  by_cases h10 : m < 10
  · have ht : (hexDigit m).toNat = 48 + m := by
      rw [hexDigit, if_pos h10]
      exact toNat_ofNat_lt (by omega)
    unfold hexVal
    rw [ht, if_pos (by omega)]
    congr 1
    omega
  · have ht : (hexDigit m).toNat = 87 + m := by
      rw [hexDigit, if_neg h10]
      exact toNat_ofNat_lt (by omega)
    unfold hexVal
    rw [ht, if_neg (by omega), if_pos (by omega)]
    congr 1
    omega

theorem parseStrBody_escape (s : Str) :
    ∀ rest : List Char, parseStrBody (escapeStr s ++ '"' :: rest) = some (s, rest) := by
  induction s with
  | nil =>
    intro rest
    rw [show escapeStr [] ++ '"' :: rest = '"' :: rest from rfl, parseStrBody.eq_def]
    simp
  | cons c t ih =>
    intro rest
    have hesc : escapeStr (c :: t) ++ '"' :: rest = escapeChar c ++ (escapeStr t ++ '"' :: rest) := by
      simp [escapeStr]
    rw [hesc]
    by_cases h1 : c = '"'
    · subst h1
      rw [show escapeChar '"' ++ (escapeStr t ++ '"' :: rest) =
        '\\' :: '"' :: (escapeStr t ++ '"' :: rest) from rfl, parseStrBody.eq_def]
      simp [ih]
    by_cases h2 : c = '\\'
    · subst h2
      rw [show escapeChar '\\' ++ (escapeStr t ++ '"' :: rest) =
        '\\' :: '\\' :: (escapeStr t ++ '"' :: rest) from rfl, parseStrBody.eq_def]
      simp [ih]
    by_cases h3 : c = '\x08'
    · subst h3
      rw [show escapeChar '\x08' ++ (escapeStr t ++ '"' :: rest) =
        '\\' :: 'b' :: (escapeStr t ++ '"' :: rest) from rfl, parseStrBody.eq_def]
      simp [ih]
    by_cases h4 : c = '\x0c'
    · subst h4
      rw [show escapeChar '\x0c' ++ (escapeStr t ++ '"' :: rest) =
        '\\' :: 'f' :: (escapeStr t ++ '"' :: rest) from rfl, parseStrBody.eq_def]
      simp [ih]
    by_cases h5 : c = '\n'
    · subst h5
      rw [show escapeChar '\n' ++ (escapeStr t ++ '"' :: rest) =
        '\\' :: 'n' :: (escapeStr t ++ '"' :: rest) from rfl, parseStrBody.eq_def]
      simp [ih]
    by_cases h6 : c = '\r'
    · subst h6
      rw [show escapeChar '\r' ++ (escapeStr t ++ '"' :: rest) =
        '\\' :: 'r' :: (escapeStr t ++ '"' :: rest) from rfl, parseStrBody.eq_def]
      simp [ih]
    by_cases h7 : c = '\t'
    · subst h7
      rw [show escapeChar '\t' ++ (escapeStr t ++ '"' :: rest) =
        '\\' :: 't' :: (escapeStr t ++ '"' :: rest) from rfl, parseStrBody.eq_def]
      simp [ih]
    by_cases h8 : c.toNat < 32
    · have hesc2 : escapeChar c ++ (escapeStr t ++ '"' :: rest) =
          '\\' :: 'u' :: '0' :: '0' :: hexDigit (c.toNat / 16) :: hexDigit (c.toNat % 16) ::
            (escapeStr t ++ '"' :: rest) := by
        rw [escapeChar, if_neg h1, if_neg h2, if_neg h3, if_neg h4, if_neg h5, if_neg h6,
          if_neg h7, if_pos h8]
        rfl
      rw [hesc2, parseStrBody.eq_def]
      simp only []
      rw [show hexVal '0' = some 0 from rfl]
      rw [hexVal_hexDigit (by omega), hexVal_hexDigit (by omega)]
      simp [ih]
      rw [show c.toNat / 16 * 16 + c.toNat % 16 = c.toNat by omega, Char.ofNat_toNat]
    · have hesc2 : escapeChar c ++ (escapeStr t ++ '"' :: rest) =
          c :: (escapeStr t ++ '"' :: rest) := by
        rw [escapeChar, if_neg h1, if_neg h2, if_neg h3, if_neg h4, if_neg h5, if_neg h6,
          if_neg h7, if_neg h8]
        rfl
      rw [hesc2, parseStrBody.eq_def]
      simp only [if_neg h1, if_neg h2]
      rw [ih]
      rfl

/-! ## Parser dispatch lemmas -/

theorem weight_pos (j : Json) : 1 ≤ weight j := by
  cases j <;> simp [weight]

theorem weightF_pos (l : List (Str × Json)) : 1 ≤ weightF l := by
  cases l with
  | nil => simp [weightF]
  | cons e t =>
    simp only [weightF]
    omega

theorem weightL_pos (l : List Json) : 1 ≤ weightL l := by
  cases l with
  | nil => simp [weightL]
  | cons v t =>
    simp only [weightL]
    omega

theorem skipWs_idem (cs : List Char) : skipWs (skipWs cs) = skipWs cs := by
  induction cs with
  | nil => rfl
  | cons c t ih =>
    by_cases h : isWs c = true
    · rw [skipWs_cons_ws h, ih]
    · have h' : isWs c = false := by simpa using h
      rw [skipWs_cons_not_ws h', skipWs_cons_not_ws h']

theorem parseVal_skip_congr {cs1 cs2 : List Char} (h : skipWs cs1 = skipWs cs2) (f : Nat) :
    parseVal f cs1 = parseVal f cs2 := by
  cases f with
  | zero => rfl
  | succ f =>
    simp only [parseVal]
    rw [h]

theorem parseVal_cons_ws {a : Char} (ha : isWs a = true) (cs : List Char) (f : Nat) :
    parseVal f (a :: cs) = parseVal f cs :=
  parseVal_skip_congr (skipWs_cons_ws ha cs) f

theorem parseVal_spaces (n : Nat) (cs : List Char) (f : Nat) :
    parseVal f (spaces n ++ cs) = parseVal f cs :=
  parseVal_skip_congr (skipWs_spaces_append n cs) f

theorem parseVal_skipWs (cs : List Char) (f : Nat) :
    parseVal f (skipWs cs) = parseVal f cs :=
  parseVal_skip_congr (skipWs_idem cs) f

theorem numOk_intro {rest : List Char}
    (h : ∀ c, rest.head? = some c → isDigit c = false) (j : Json) : numOk j rest := by
  cases j <;> simp [numOk]
  exact h

theorem numOk_cons {c : Char} (hc : isDigit c = false) (t : List Char) (j : Json) :
    numOk j (c :: t) :=
  numOk_intro (fun x hx => by cases hx; exact hc) j

theorem ne_char_of_digit_range {c d : Char} (hlo : 48 ≤ c.toNat) (hhi : c.toNat ≤ 57)
    (hd : d.toNat < 48 ∨ 57 < d.toNat) : c ≠ d :=
  ne_of_toNat_ne (by omega)

/-- The first character any printed JSON value starts with: never whitespace,
never a closing bracket or brace. -/
theorem dumpJ_head (j : Json) (i : Nat) :
    ∃ c cs, dumpJ j i = c :: cs ∧ isWs c = false ∧ c.toNat ≠ 93 ∧ c.toNat ≠ 125 := by
  cases j with
  | null => exact ⟨'n', ['u', 'l', 'l'], by simp [dumpJ], by decide, by decide, by decide⟩
  | bool b =>
    cases b with
    | true => exact ⟨'t', ['r', 'u', 'e'], by simp [dumpJ], by decide, by decide, by decide⟩
    | false => exact ⟨'f', ['a', 'l', 's', 'e'], by simp [dumpJ], by decide, by decide, by decide⟩
  | num n =>
    by_cases hn : n < 0
    · exact ⟨'-', natToChars n.natAbs, by simp [dumpJ, intToChars, hn], by decide, by decide,
        by decide⟩
    · obtain ⟨d, ds, hd⟩ : ∃ d ds, natToChars n.toNat = d :: ds := by
        cases hnc : natToChars n.toNat with
        | nil => exact absurd hnc (natToChars_ne_nil _)
        | cons d ds => exact ⟨d, ds, rfl⟩
      have hdig : isDigit d = true := natToChars_allDigits _ d (by rw [hd]; simp)
      have hb : 48 ≤ d.toNat ∧ d.toNat ≤ 57 := by
        simpa [isDigit] using hdig
      refine ⟨d, ds, ?_, ?_, by omega, by omega⟩
      · simp [dumpJ, intToChars, hn, hd]
      · rw [isWs_false_iff]
        omega
  | str s =>
    exact ⟨'"', escapeStr s ++ ['"'], by simp [dumpJ, dumpStr], by decide, by decide, by decide⟩
  | arr l =>
    cases l with
    | nil => exact ⟨'[', [']'], by simp [dumpJ], by decide, by decide, by decide⟩
    | cons v t =>
      exact ⟨'[', '\n' :: (dumpElems (v :: t) (i + 4) ++ '\n' :: (spaces i ++ [']'])),
        by simp [dumpJ], by decide, by decide, by decide⟩
  | obj l =>
    cases l with
    | nil => exact ⟨'{', ['}'], by simp [dumpJ], by decide, by decide, by decide⟩
    | cons e t =>
      exact ⟨'{', '\n' :: (dumpFields (e :: t) (i + 4) ++ '\n' :: (spaces i ++ ['}'])),
        by simp [dumpJ], by decide, by decide, by decide⟩

theorem dumpFields_cons_shape (k : Str) (v : Json) (t : List (Str × Json)) (i : Nat) :
    ∃ R, dumpFields ((k, v) :: t) i = spaces i ++ '"' :: R := by
  cases t with
  | nil =>
    refine ⟨(escapeStr k ++ ['"']) ++ ':' :: ' ' :: dumpJ v i, ?_⟩
    simp [dumpFields, dumpStr]
  | cons e t2 =>
    refine ⟨(escapeStr k ++ ['"']) ++ ':' :: ' ' :: dumpJ v i ++ ',' :: '\n' ::
      dumpFields (e :: t2) i, ?_⟩
    simp [dumpFields, dumpStr]

theorem skipWs_dumpFields_head (k : Str) (v : Json) (t : List (Str × Json)) (i : Nat)
    (tl : List Char) :
    ∃ W, skipWs (dumpFields ((k, v) :: t) i ++ tl) = '"' :: W := by
  obtain ⟨R, hR⟩ := dumpFields_cons_shape k v t i
  refine ⟨R ++ tl, ?_⟩
  rw [hR, List.append_assoc, skipWs_spaces_append, List.cons_append,
    skipWs_cons_not_ws (by decide)]

theorem skipWs_dumpElems_head (v : Json) (t : List Json) (i : Nat) (tl : List Char) :
    ∃ c W, skipWs (dumpElems (v :: t) i ++ tl) = c :: W ∧ isWs c = false ∧
      c.toNat ≠ 93 ∧ c.toNat ≠ 125 := by
  obtain ⟨c0, cs0, hv, hws, h93, h125⟩ := dumpJ_head v i
  cases t with
  | nil =>
    refine ⟨c0, cs0 ++ tl, ?_, hws, h93, h125⟩
    rw [show dumpElems [v] i = spaces i ++ dumpJ v i from by simp [dumpElems]]
    rw [List.append_assoc, skipWs_spaces_append, hv, List.cons_append,
      skipWs_cons_not_ws hws]
  | cons v2 t2 =>
    refine ⟨c0, cs0 ++ (',' :: '\n' :: dumpElems (v2 :: t2) i ++ tl), ?_, hws, h93, h125⟩
    rw [show dumpElems (v :: v2 :: t2) i =
      spaces i ++ dumpJ v i ++ ',' :: '\n' :: dumpElems (v2 :: t2) i from by simp [dumpElems]]
    rw [List.append_assoc, List.append_assoc, skipWs_spaces_append, hv, List.cons_append,
      skipWs_cons_not_ws hws]

/-! ## Printer/parser round trip -/

theorem parse_dump_main : ∀ f : Nat,
    (∀ (j : Json) (i : Nat) (rest : List Char), weight j ≤ f → numOk j rest →
      parseVal f (dumpJ j i ++ rest) = some (j, rest)) ∧
    (∀ (l : List (Str × Json)) (i ind : Nat) (rest : List Char), l ≠ [] → weightF l ≤ f →
      parseFields f (skipWs (dumpFields l i ++ '\n' :: (spaces ind ++ '}' :: rest))) =
        some (l, rest)) ∧
    (∀ (l : List Json) (i ind : Nat) (rest : List Char), l ≠ [] → weightL l ≤ f →
      parseElems f (skipWs (dumpElems l i ++ '\n' :: (spaces ind ++ ']' :: rest))) =
        some (l, rest)) := by
  intro f
  induction f with
  | zero =>
    refine ⟨fun j _ _ hw _ => absurd hw (by have := weight_pos j; omega),
      fun l _ _ _ _ hw => absurd hw (by have := weightF_pos l; omega),
      fun l _ _ _ _ hw => absurd hw (by have := weightL_pos l; omega)⟩
  | succ f ih =>
    obtain ⟨ihV, ihF, ihE⟩ := ih
    refine ⟨?_, ?_, ?_⟩
    · -- values
      intro j i rest hw hnum
      cases j with
      | null =>
        rw [show dumpJ .null i ++ rest = 'n' :: 'u' :: 'l' :: 'l' :: rest from by simp [dumpJ]]
        simp only [parseVal]
        rw [skipWs_cons_not_ws (by decide)]
        simp
      | bool b =>
        cases b with
        | true =>
          rw [show dumpJ (.bool true) i ++ rest = 't' :: 'r' :: 'u' :: 'e' :: rest from by
            simp [dumpJ]]
          simp only [parseVal]
          rw [skipWs_cons_not_ws (by decide)]
          simp
        | false =>
          rw [show dumpJ (.bool false) i ++ rest = 'f' :: 'a' :: 'l' :: 's' :: 'e' :: rest from by
            simp [dumpJ]]
          simp only [parseVal]
          rw [skipWs_cons_not_ws (by decide)]
          simp
      | num n =>
        have hnum' : ∀ c, rest.head? = some c → isDigit c = false := hnum
        by_cases hn : n < 0
        · obtain ⟨d, ds, hdc⟩ : ∃ d ds, natToChars n.natAbs = d :: ds := by
            cases hnc : natToChars n.natAbs with
            | nil => exact absurd hnc (natToChars_ne_nil _)
            | cons d ds => exact ⟨d, ds, rfl⟩
          have hdig : isDigit d = true := natToChars_allDigits _ d (by rw [hdc]; simp)
          rw [show dumpJ (.num n) i ++ rest = '-' :: (d :: (ds ++ rest)) from by
            simp [dumpJ, intToChars, hn, hdc]]
          simp only [parseVal]
          rw [skipWs_cons_not_ws (by decide)]
          simp only [reduceIte, Char.reduceEq]
          rw [show (d :: (ds ++ rest)) = natToChars n.natAbs ++ rest from by
            rw [hdc, List.cons_append]]
          rw [hdig]
          simp only [if_true]
          rw [parseDigits_natToChars _ hnum']
          have : -((n.natAbs : Nat) : Int) = n := by omega
          simp [this, abs_of_neg hn]
        · obtain ⟨d, ds, hdc⟩ : ∃ d ds, natToChars n.toNat = d :: ds := by
            cases hnc : natToChars n.toNat with
            | nil => exact absurd hnc (natToChars_ne_nil _)
            | cons d ds => exact ⟨d, ds, rfl⟩
          have hdig : isDigit d = true := natToChars_allDigits _ d (by rw [hdc]; simp)
          have hb : 48 ≤ d.toNat ∧ d.toNat ≤ 57 := by
            simpa [isDigit] using hdig
          rw [show dumpJ (.num n) i ++ rest = d :: (ds ++ rest) from by
            simp [dumpJ, intToChars, hn, hdc]]
          simp only [parseVal]
          rw [skipWs_cons_not_ws (by rw [isWs_false_iff]; omega)]
          simp only []
          rw [if_neg (ne_char_of_digit_range hb.1 hb.2 (by decide)),
            if_neg (ne_char_of_digit_range hb.1 hb.2 (by decide)),
            if_neg (ne_char_of_digit_range hb.1 hb.2 (by decide)),
            if_neg (ne_char_of_digit_range hb.1 hb.2 (by decide)),
            if_neg (ne_char_of_digit_range hb.1 hb.2 (by decide)),
            if_neg (ne_char_of_digit_range hb.1 hb.2 (by decide)),
            if_neg (ne_char_of_digit_range hb.1 hb.2 (by decide)),
            if_pos hdig]
          rw [show (d :: (ds ++ rest)) = natToChars n.toNat ++ rest from by
            rw [hdc, List.cons_append]]
          rw [parseDigits_natToChars _ hnum']
          have : ((n.toNat : Nat) : Int) = n := Int.toNat_of_nonneg (by omega)
          simp [this]
      | str s =>
        rw [show dumpJ (.str s) i ++ rest = '"' :: (escapeStr s ++ '"' :: rest) from by
          simp [dumpJ, dumpStr]]
        simp only [parseVal]
        rw [skipWs_cons_not_ws (by decide)]
        simp [parseStrBody_escape s rest]
      | arr l =>
        cases l with
        | nil =>
          rw [show dumpJ (.arr []) i ++ rest = '[' :: ']' :: rest from by simp [dumpJ]]
          simp only [parseVal]
          rw [skipWs_cons_not_ws (by decide)]
          simp only [reduceIte, Char.reduceEq]
          rw [skipWs_cons_not_ws (by decide)]
          simp
        | cons v t =>
          rw [show dumpJ (.arr (v :: t)) i ++ rest =
            '[' :: '\n' :: (dumpElems (v :: t) (i + 4) ++ '\n' :: (spaces i ++ ']' :: rest))
            from by simp [dumpJ]]
          simp only [parseVal]
          rw [skipWs_cons_not_ws (by decide)]
          simp only [reduceIte, Char.reduceEq]
          rw [skipWs_cons_ws (by decide)]
          obtain ⟨c, W, hS, hws, h93, h125⟩ :=
            skipWs_dumpElems_head v t (i + 4) ('\n' :: (spaces i ++ ']' :: rest))
          rw [hS]
          simp only []
          rw [if_neg (ne_of_toNat_ne (by simp only [show (']').toNat = 93 from rfl]; omega))]
          rw [← hS, ihE (v :: t) (i + 4) i rest (by simp) (by
            simp only [weight, weightL] at hw ⊢
            omega)]
          rfl
      | obj l =>
        cases l with
        | nil =>
          rw [show dumpJ (.obj []) i ++ rest = '{' :: '}' :: rest from by simp [dumpJ]]
          simp only [parseVal]
          rw [skipWs_cons_not_ws (by decide)]
          simp only [reduceIte, Char.reduceEq]
          rw [skipWs_cons_not_ws (by decide)]
          simp
        | cons e t =>
          obtain ⟨k, v⟩ := e
          rw [show dumpJ (.obj ((k, v) :: t)) i ++ rest =
            '{' :: '\n' :: (dumpFields ((k, v) :: t) (i + 4) ++ '\n' :: (spaces i ++ '}' :: rest))
            from by simp [dumpJ]]
          simp only [parseVal]
          rw [skipWs_cons_not_ws (by decide)]
          simp only [reduceIte, Char.reduceEq]
          rw [skipWs_cons_ws (by decide)]
          obtain ⟨W, hS⟩ :=
            skipWs_dumpFields_head k v t (i + 4) ('\n' :: (spaces i ++ '}' :: rest))
          rw [hS]
          simp only []
          rw [if_neg (by decide)]
          rw [← hS, ihF ((k, v) :: t) (i + 4) i rest (by simp) (by
            simp only [weight, weightF] at hw ⊢
            omega)]
          rfl
    · -- object members
      intro l i ind rest hne hw
      obtain ⟨⟨k, v⟩, t, rfl⟩ : ∃ e t, l = e :: t := by
        cases l with
        | nil => exact absurd rfl hne
        | cons e t => exact ⟨e, t, rfl⟩
      have hwv : weight v ≤ f := by
        simp only [weightF] at hw
        omega
      have hwt : weightF t ≤ f := by
        simp only [weightF] at hw
        have := weightF_pos t
        omega
      cases t with
      | nil =>
        rw [show dumpFields [(k, v)] i ++ '\n' :: (spaces ind ++ '}' :: rest) =
          spaces i ++ ('"' :: (escapeStr k ++ '"' ::
            (':' :: ' ' :: (dumpJ v i ++ '\n' :: (spaces ind ++ '}' :: rest))))) from by
          simp [dumpFields, dumpStr]]
        rw [skipWs_spaces_append, skipWs_cons_not_ws (by decide)]
        simp only [parseFields]
        rw [parseStrBody_escape]
        simp only []
        rw [skipWs_cons_not_ws (by decide)]
        simp only [reduceIte, Char.reduceEq]
        rw [parseVal_cons_ws (by decide)]
        rw [ihV v i ('\n' :: (spaces ind ++ '}' :: rest)) hwv (numOk_cons (by decide) _ v)]
        simp only []
        rw [skipWs_cons_ws (by decide), skipWs_spaces_append, skipWs_cons_not_ws (by decide)]
        simp
      | cons e2 t2 =>
        rw [show dumpFields ((k, v) :: e2 :: t2) i ++ '\n' :: (spaces ind ++ '}' :: rest) =
          spaces i ++ ('"' :: (escapeStr k ++ '"' ::
            (':' :: ' ' :: (dumpJ v i ++ ',' :: '\n' ::
              (dumpFields (e2 :: t2) i ++ '\n' :: (spaces ind ++ '}' :: rest)))))) from by
          simp [dumpFields, dumpStr]]
        rw [skipWs_spaces_append, skipWs_cons_not_ws (by decide)]
        simp only [parseFields]
        rw [parseStrBody_escape]
        simp only []
        rw [skipWs_cons_not_ws (by decide)]
        simp only [reduceIte, Char.reduceEq]
        rw [parseVal_cons_ws (by decide)]
        rw [ihV v i (',' :: '\n' :: (dumpFields (e2 :: t2) i ++ '\n' ::
          (spaces ind ++ '}' :: rest))) hwv (numOk_cons (by decide) _ v)]
        simp only []
        rw [skipWs_cons_not_ws (by decide)]
        simp only [reduceIte, Char.reduceEq]
        rw [skipWs_cons_ws (by decide)]
        rw [ihF (e2 :: t2) i ind rest (by simp) hwt]
        rfl
    · -- array elements
      intro l i ind rest hne hw
      obtain ⟨v, t, rfl⟩ : ∃ v t, l = v :: t := by
        cases l with
        | nil => exact absurd rfl hne
        | cons v t => exact ⟨v, t, rfl⟩
      have hwv : weight v ≤ f := by
        simp only [weightL] at hw
        omega
      have hwt : weightL t ≤ f := by
        simp only [weightL] at hw
        have := weightL_pos t
        omega
      cases t with
      | nil =>
        rw [show dumpElems [v] i ++ '\n' :: (spaces ind ++ ']' :: rest) =
          spaces i ++ (dumpJ v i ++ '\n' :: (spaces ind ++ ']' :: rest)) from by
          simp [dumpElems]]
        simp only [parseFields, parseElems]
        rw [parseVal_skipWs, parseVal_spaces]
        rw [ihV v i ('\n' :: (spaces ind ++ ']' :: rest)) hwv (numOk_cons (by decide) _ v)]
        simp only []
        rw [skipWs_cons_ws (by decide), skipWs_spaces_append, skipWs_cons_not_ws (by decide)]
        simp
      | cons v2 t2 =>
        rw [show dumpElems (v :: v2 :: t2) i ++ '\n' :: (spaces ind ++ ']' :: rest) =
          spaces i ++ (dumpJ v i ++ ',' :: '\n' ::
            (dumpElems (v2 :: t2) i ++ '\n' :: (spaces ind ++ ']' :: rest))) from by
          simp [dumpElems]]
        simp only [parseFields, parseElems]
        rw [parseVal_skipWs, parseVal_spaces]
        rw [ihV v i (',' :: '\n' :: (dumpElems (v2 :: t2) i ++ '\n' ::
          (spaces ind ++ ']' :: rest))) hwv (numOk_cons (by decide) _ v)]
        simp only []
        rw [skipWs_cons_not_ws (by decide)]
        simp only [reduceIte, Char.reduceEq]
        rw [skipWs_cons_ws (by decide)]
        rw [ihE (v2 :: t2) i ind rest (by simp) hwt]
        rfl

/-! ## Fuel bounds: the printed length dominates the weight -/

mutual

theorem weight_le_dumpJ : ∀ (j : Json) (i : Nat), weight j ≤ (dumpJ j i).length
  | .null, i => by simp [weight, dumpJ]
  | .bool b, i => by cases b <;> simp [weight, dumpJ]
  | .num n, i => by
    have h : 1 ≤ (intToChars n).length := by
      unfold intToChars
      by_cases hn : n < 0
      · rw [if_pos hn]
        simp
      · rw [if_neg hn]
        cases hh : natToChars n.toNat with
        | nil => exact absurd hh (natToChars_ne_nil _)
        | cons a b => simp [hh]
    have hd : dumpJ (.num n) i = intToChars n := by simp [dumpJ]
    rw [hd]
    simpa [weight] using h
  | .str s, i => by simp [weight, dumpJ, dumpStr]
  | .arr [], i => by simp [weight, weightL, dumpJ]
  | .arr (v :: t), i => by
    have h := weightL_le_dumpElems (v :: t) (i + 4) (by simp) (by omega)
    have hd : dumpJ (.arr (v :: t)) i =
        '[' :: '\n' :: (dumpElems (v :: t) (i + 4) ++ '\n' :: (spaces i ++ [']'])) := by
      simp [dumpJ]
    rw [hd]
    simp only [weight, List.length_cons, List.length_append, spaces, List.length_replicate]
    omega
  | .obj [], i => by simp [weight, weightF, dumpJ]
  | .obj (e :: t), i => by
    have h := weightF_le_dumpFields (e :: t) (i + 4) (by simp)
    have hd : dumpJ (.obj (e :: t)) i =
        '{' :: '\n' :: (dumpFields (e :: t) (i + 4) ++ '\n' :: (spaces i ++ ['}'])) := by
      simp [dumpJ]
    rw [hd]
    simp only [weight, List.length_cons, List.length_append, spaces, List.length_replicate]
    omega

theorem weightL_le_dumpElems : ∀ (l : List Json) (i : Nat), l ≠ [] → 4 ≤ i →
    weightL l ≤ (dumpElems l i).length
  | [], _, hne, _ => absurd rfl hne
  | [v], i, _, hi => by
    have h := weight_le_dumpJ v i
    have hd : dumpElems [v] i = spaces i ++ dumpJ v i := by simp [dumpElems]
    rw [hd]
    simp only [weightL, List.length_append, spaces, List.length_replicate]
    omega
  | v :: v2 :: t2, i, _, hi => by
    have h1 := weight_le_dumpJ v i
    have h2 := weightL_le_dumpElems (v2 :: t2) i (by simp) hi
    have hd : dumpElems (v :: v2 :: t2) i =
        spaces i ++ dumpJ v i ++ ',' :: '\n' :: dumpElems (v2 :: t2) i := by
      simp [dumpElems]
    rw [hd]
    simp only [weightL] at h2
    simp only [weightL, List.length_append, List.length_cons, spaces, List.length_replicate]
    omega

theorem weightF_le_dumpFields : ∀ (l : List (Str × Json)) (i : Nat), l ≠ [] →
    weightF l ≤ (dumpFields l i).length
  | [], _, hne => absurd rfl hne
  | [(k, v)], i, _ => by
    have h := weight_le_dumpJ v i
    have hd : dumpFields [(k, v)] i = spaces i ++ (dumpStr k ++ ':' :: ' ' :: dumpJ v i) := by
      simp [dumpFields]
    rw [hd]
    simp only [weightF, dumpStr, List.length_append, List.length_cons, spaces,
      List.length_replicate]
    omega
  | (k, v) :: e2 :: t2, i, _ => by
    have h1 := weight_le_dumpJ v i
    have h2 := weightF_le_dumpFields (e2 :: t2) i (by simp)
    have hd : dumpFields ((k, v) :: e2 :: t2) i =
        spaces i ++ (dumpStr k ++ ':' :: ' ' :: dumpJ v i) ++ ',' :: '\n' ::
          dumpFields (e2 :: t2) i := by
      simp [dumpFields]
    rw [hd]
    simp only [weightF] at h2
    simp only [weightF, dumpStr, List.length_append, List.length_cons, spaces,
      List.length_replicate]
    omega

end

/-! ## Document-level round trip -/

theorem parseVal_dump_top (d : Dataset) (f : Nat) (hf : weight (toJson d) ≤ f)
    (rest : List Char) : parseVal f (dumpDataset d ++ rest) = some (toJson d, rest) :=
  (parse_dump_main f).1 (toJson d) 0 rest hf (by simp [toJson, numOk])

theorem parseDoc_dump (d : Dataset) : parseDoc (dumpDataset d) = some (toJson d) := by
  unfold parseDoc
  have hw : weight (toJson d) ≤ (dumpDataset d).length + 1 := by
    have := weight_le_dumpJ (toJson d) 0
    have h2 : (dumpDataset d).length = (dumpJ (toJson d) 0).length := rfl
    omega
  have h := parseVal_dump_top d ((dumpDataset d).length + 1) hw []
  rw [List.append_nil] at h
  rw [h]
  simp [skipWs]

theorem parseDoc_dump_extra (d : Dataset) (extra : List Char) (hx : skipWs extra ≠ []) :
    parseDoc (dumpDataset d ++ extra) = none := by
  unfold parseDoc
  have hw : weight (toJson d) ≤ (dumpDataset d ++ extra).length + 1 := by
    have := weight_le_dumpJ (toJson d) 0
    have h2 : (dumpDataset d ++ extra).length = (dumpJ (toJson d) 0).length + extra.length :=
      List.length_append _ _
    omega
  rw [parseVal_dump_top d _ hw extra]
  simp [hx]

theorem ofJson_toJson (d : Dataset) : ofJson (toJson d) = some d := by
  induction d with
  | nil => rfl
  | cons e t ih =>
    obtain ⟨k, sub⟩ := e
    have ih' : (t.map fun e => (e.1, Json.obj e.2)).mapM
        (fun e => match e.2 with | Json.obj s => some (e.1, s) | _ => none) = some t := ih
    show ((k, Json.obj sub) :: t.map fun e => (e.1, Json.obj e.2)).mapM
        (fun e => match e.2 with | Json.obj s => some (e.1, s) | _ => none) =
      some ((k, sub) :: t)
    rw [List.mapM_cons, ih']
    rfl

theorem parseDataset_dump (d : Dataset) : parseDataset (dumpDataset d) = some d := by
  unfold parseDataset
  rw [parseDoc_dump]
  exact ofJson_toJson d

theorem parseDataset_dump_extra (d : Dataset) (extra : List Char) (hx : skipWs extra ≠ []) :
    parseDataset (dumpDataset d ++ extra) = none := by
  unfold parseDataset
  rw [parseDoc_dump_extra d extra hx]

/-! ## Shape facts about the printed dataset -/

theorem dumpDataset_ne_nil (d : Dataset) : dumpDataset d ≠ [] := by
  obtain ⟨c, cs, hc, -, -, -⟩ := dumpJ_head (toJson d) 0
  show dumpJ (toJson d) 0 ≠ []
  rw [hc]
  simp

theorem dumpDataset_length_pos (d : Dataset) : 0 < (dumpDataset d).length :=
  List.length_pos.mpr (dumpDataset_ne_nil d)

theorem dumpDataset_ends_brace (d : Dataset) : ∃ pre, dumpDataset d = pre ++ ['}'] := by
  cases d with
  | nil => exact ⟨['{'], by simp [dumpDataset, toJson, dumpJ]⟩
  | cons e t =>
    refine ⟨'{' :: '\n' :: (dumpFields ((e.1, .obj e.2) :: t.map fun x => (x.1, .obj x.2)) 4 ++
      ['\n']), ?_⟩
    show dumpJ (toJson (e :: t)) 0 = _
    rw [show toJson (e :: t) = .obj ((e.1, Json.obj e.2) :: t.map fun x => (x.1, .obj x.2))
      from rfl]
    rw [show dumpJ (.obj ((e.1, Json.obj e.2) :: t.map fun x => (x.1, .obj x.2))) 0 =
      '{' :: '\n' :: (dumpFields ((e.1, Json.obj e.2) :: t.map fun x => (x.1, .obj x.2)) 4 ++
        '\n' :: (spaces 0 ++ ['}'])) from by simp [dumpJ]]
    simp [spaces]

/-- The stale suffix left by a shorter second write contains the closing brace
of the first serialization, so it is not pure whitespace. -/
theorem skipWs_drop_dump_ne_nil (A : Dataset) {n : Nat}
    (hn : n < (dumpDataset A).length) (tail : List Char) :
    skipWs ((dumpDataset A).drop n ++ tail) ≠ [] := by
  obtain ⟨pre, hpre⟩ := dumpDataset_ends_brace A
  have hlen : n ≤ pre.length := by
    have := congrArg List.length hpre
    simp [List.length_append] at this
    omega
  have hmem : '}' ∈ (dumpDataset A).drop n ++ tail := by
    rw [hpre, List.drop_append_eq_append_drop]
    have h0 : n - pre.length = 0 := by omega
    rw [h0]
    simp
  exact skipWs_ne_nil_of_mem_not_ws hmem (by decide)

/-! ## Filesystem lemmas -/

theorem getFile_setFile (fs : FS) (p : String) (c : List Char) :
    (fs.setFile p c).getFile p = some c := by
  simp [FS.getFile, FS.setFile, List.lookup]

theorem mkdirp_files (fs : FS) (d : String) : (fs.mkdirp d).files = fs.files := rfl

theorem getFile_mkdirp (fs : FS) (d : String) (p : String) :
    (fs.mkdirp d).getFile p = fs.getFile p := rfl

theorem mem_dirs_mkdirp {fs : FS} {d p : String} (h : p ∈ (fs.mkdirp d).dirs) :
    p ∈ fs.dirs ∨ p ∈ ancestors d := by
  simp only [FS.mkdirp, List.mem_append, List.mem_filter] at h
  tauto

theorem ancestors_length_le {d a : String} (h : a ∈ ancestors d) :
    a.data.length ≤ d.data.length := by
  simp only [ancestors, List.mem_append, List.mem_filterMap, List.mem_range,
    List.mem_singleton] at h
  rcases h with ⟨i, hi, hsep⟩ | rfl
  · split at hsep
    · cases hsep
      simp only [String.data]
      rw [List.length_take]
      omega
    · cases hsep
  · omega

theorem lastSepIdx_lt_length {cs : List Char} {i : Nat} (h : lastSepIdx cs = some i) :
    i < cs.length := by
  induction cs generalizing i with
  | nil => cases h
  | cons c t ih =>
    rw [lastSepIdx] at h
    cases hc : lastSepIdx t with
    | some j =>
      rw [hc] at h
      cases h
      have := ih hc
      simp only [List.length_cons]
      omega
    | none =>
      rw [hc] at h
      by_cases hs : isSep c = true
      · rw [if_pos hs] at h
        cases h
        simp
      · rw [if_neg hs] at h
        cases h

theorem dirExists_false_of_not_mem {fs : FS} {p : String} (h : p ∉ fs.dirs) :
    fs.dirExists p = false := by
  simp [FS.dirExists, h]

theorem baseDir_data_length_lt {path : String} {i : Nat} (h : lastSepIdx path.data = some i) :
    (baseDir path).data.length < path.data.length := by
  rw [baseDir, h]
  simp only [String.data]
  rw [List.length_take]
  have := lastSepIdx_lt_length h
  omega

theorem not_mem_mkdirp_baseDir {fs : FS} {path : String} {i : Nat}
    (hsep : lastSepIdx path.data = some i) (hd : path ∉ fs.dirs) :
    path ∉ (fs.mkdirp (baseDir path)).dirs := by
  intro hmem
  rcases mem_dirs_mkdirp hmem with h | h
  · exact hd h
  · have h1 := ancestors_length_le h
    have h2 := baseDir_data_length_lt hsep
    omega

/-- Touching a path where a file already exists succeeds and leaves that
file's content unchanged, whatever `create_dirs` is (given the filesystem is
sane: no directory at the file's path). -/
theorem touch_existing_file (path : String) (cd : Bool) (fs : FS) (c : List Char)
    (hf : fs.getFile path = some c) (hd : path ∉ fs.dirs) :
    ∃ fs1 : FS, touch path cd fs = (.ok (), fs1) ∧ fs1.getFile path = some c := by
  have hfe : fs.fileExists path = true := by
    simp [FS.fileExists, hf]
  have hopen : ∀ fs1 : FS, fs1.getFile path = some c → fs1.dirExists path = false →
      openAppend fs1 path = .ok fs1 := by
    intro fs1 h1 h2
    unfold openAppend
    rw [h2]
    simp only [Bool.false_eq_true, if_false]
    rw [show fs1.fileExists path = true from by simp [FS.fileExists, h1]]
    simp
  unfold touch
  cases cd with
  | false =>
    simp only [Bool.false_eq_true, if_false]
    rw [hopen fs hf (dirExists_false_of_not_mem hd)]
    exact ⟨fs, rfl, hf⟩
  | true =>
    simp only [if_true]
    by_cases hstat : fs.statOk (baseDir path) = true
    · rw [hstat]
      simp only [not_true, Bool.true_eq_false, if_false, ite_false, ite_self]
      rw [hopen fs hf (dirExists_false_of_not_mem hd)]
      exact ⟨fs, rfl, hf⟩
    · have hstat' : fs.statOk (baseDir path) = false := by
        simpa using hstat
      rw [hstat']
      rw [show (if ¬ false = true then fs.mkdirp (baseDir path) else fs) =
        fs.mkdirp (baseDir path) from by simp]
      obtain ⟨i, hsep⟩ : ∃ i, lastSepIdx path.data = some i := by
        cases hs : lastSepIdx path.data with
        | some i => exact ⟨i, rfl⟩
        | none =>
          exfalso
          have hb : baseDir path = path := by rw [baseDir, hs]
          rw [hb] at hstat'
          simp [FS.statOk, hfe] at hstat'
      have hnm := not_mem_mkdirp_baseDir hsep hd
      have hgf : (fs.mkdirp (baseDir path)).getFile path = some c := by
        rw [getFile_mkdirp]
        exact hf
      rw [hopen _ hgf (dirExists_false_of_not_mem hnm)]
      exact ⟨fs.mkdirp (baseDir path), rfl, hgf⟩

/-! ## Claim theorems -/

/-- C1: for every dataset `D`, `write(D)` followed by `read()` on the same
`JSONStorage` handle returns a dataset deep-equal to `D`, provided the byte
length of `serialize(D)` is at least the byte length of the file's prior
content. -/
theorem write_then_read_roundtrip (h : JS) (fs : FS) (D : Dataset)
    (hlen : ((fs.getFile h.path).getD []).length ≤ (dumpDataset D).length) :
    jsRead (jsWrite h fs D).1 (jsWrite h fs D).2 = .ok (some D) := by
  unfold jsWrite jsRead
  simp only []
  rw [getFile_setFile]
  simp only [Option.getD_some]
  rw [List.drop_eq_nil_of_le hlen, List.append_nil]
  rw [if_neg (by have := dumpDataset_length_pos D; omega)]
  rw [parseDataset_dump]

set_option maxRecDepth 10000 in
/-- Witness for C1 at a concrete handle, filesystem and dataset. -/
theorem write_then_read_roundtrip_witness :
    ((((⟨[("data.json", [])], []⟩ : FS).getFile
        (JS.mk "data.json" "r+" true).path).getD []).length ≤
      (dumpDataset [("key1".data, [("subkey1".data, .str "value1".data)])]).length) ∧
    jsRead
      (jsWrite ⟨"data.json", "r+", true⟩ ⟨[("data.json", [])], []⟩
        [("key1".data, [("subkey1".data, .str "value1".data)])]).1
      (jsWrite ⟨"data.json", "r+", true⟩ ⟨[("data.json", [])], []⟩
        [("key1".data, [("subkey1".data, .str "value1".data)])]).2 =
      .ok (some [("key1".data, [("subkey1".data, .str "value1".data)])]) :=
  ⟨by decide, write_then_read_roundtrip _ _ _ (by decide)⟩

/-- C2: writing `A` then a strictly shorter `B` leaves the stale trailing
bytes of `A`'s serialization after `B`'s content, and the subsequent `read()`
on that handle fails with `ParseError` (rather than returning `B`). -/
theorem shorter_write_leaves_stale_bytes (h : JS) (fs : FS) (A B : Dataset)
    (hlt : (dumpDataset B).length < (dumpDataset A).length) :
    ((jsWrite (jsWrite h fs A).1 (jsWrite h fs A).2 B).2).getFile h.path =
        some (dumpDataset B ++ ((dumpDataset A).drop (dumpDataset B).length ++
          ((fs.getFile h.path).getD []).drop (dumpDataset A).length)) ∧
      (dumpDataset A).drop (dumpDataset B).length ≠ [] ∧
      jsRead (jsWrite (jsWrite h fs A).1 (jsWrite h fs A).2 B).1
        (jsWrite (jsWrite h fs A).1 (jsWrite h fs A).2 B).2 = .error .parseError := by
  have hsplit : (dumpDataset A ++
        ((fs.getFile h.path).getD []).drop (dumpDataset A).length).drop
          (dumpDataset B).length =
      (dumpDataset A).drop (dumpDataset B).length ++
        ((fs.getFile h.path).getD []).drop (dumpDataset A).length := by
    rw [List.drop_append_eq_append_drop]
    rw [Nat.sub_eq_zero_of_le (le_of_lt hlt), List.drop_zero]
  unfold jsWrite jsRead
  simp only [getFile_setFile, Option.getD_some]
  rw [hsplit]
  refine ⟨rfl, ?_, ?_⟩
  · intro hcon
    have := congrArg List.length hcon
    rw [List.length_drop] at this
    simp at this
    omega
  · rw [if_neg (by
      rw [List.length_append]
      have := dumpDataset_length_pos B
      omega)]
    rw [parseDataset_dump_extra B _ (skipWs_drop_dump_ne_nil A hlt _)]

set_option maxRecDepth 10000 in
/-- Witness for C2 at a concrete handle, filesystem and dataset pair. -/
theorem shorter_write_leaves_stale_bytes_witness :
    ((dumpDataset [("k".data, [("s".data, .num 1)])]).length <
      (dumpDataset [("key1".data, [("subkey1".data, .str "value1".data),
        ("subkey2".data, .str "value2".data)])]).length) ∧
    (((jsWrite (jsWrite ⟨"data.json", "r+", true⟩ ⟨[("data.json", [])], []⟩
        [("key1".data, [("subkey1".data, .str "value1".data),
          ("subkey2".data, .str "value2".data)])]).1
      (jsWrite ⟨"data.json", "r+", true⟩ ⟨[("data.json", [])], []⟩
        [("key1".data, [("subkey1".data, .str "value1".data),
          ("subkey2".data, .str "value2".data)])]).2
      [("k".data, [("s".data, .num 1)])]).2).getFile
        (JS.mk "data.json" "r+" true).path =
      some (dumpDataset [("k".data, [("s".data, .num 1)])] ++
        ((dumpDataset [("key1".data, [("subkey1".data, .str "value1".data),
          ("subkey2".data, .str "value2".data)])]).drop
            (dumpDataset [("k".data, [("s".data, .num 1)])]).length ++
          ((FS.getFile ⟨[("data.json", [])], []⟩ (JS.mk "data.json" "r+" true).path).getD
            []).drop (dumpDataset [("key1".data, [("subkey1".data, .str "value1".data),
              ("subkey2".data, .str "value2".data)])]).length)) ∧
      (dumpDataset [("key1".data, [("subkey1".data, .str "value1".data),
        ("subkey2".data, .str "value2".data)])]).drop
          (dumpDataset [("k".data, [("s".data, .num 1)])]).length ≠ [] ∧
      jsRead
        (jsWrite (jsWrite ⟨"data.json", "r+", true⟩ ⟨[("data.json", [])], []⟩
          [("key1".data, [("subkey1".data, .str "value1".data),
            ("subkey2".data, .str "value2".data)])]).1
          (jsWrite ⟨"data.json", "r+", true⟩ ⟨[("data.json", [])], []⟩
            [("key1".data, [("subkey1".data, .str "value1".data),
              ("subkey2".data, .str "value2".data)])]).2
          [("k".data, [("s".data, .num 1)])]).1
        (jsWrite (jsWrite ⟨"data.json", "r+", true⟩ ⟨[("data.json", [])], []⟩
          [("key1".data, [("subkey1".data, .str "value1".data),
            ("subkey2".data, .str "value2".data)])]).1
          (jsWrite ⟨"data.json", "r+", true⟩ ⟨[("data.json", [])], []⟩
            [("key1".data, [("subkey1".data, .str "value1".data),
              ("subkey2".data, .str "value2".data)])]).2
          [("k".data, [("s".data, .num 1)])]).2 = .error .parseError) :=
  ⟨by decide, shorter_write_leaves_stale_bytes _ _ _ _ (by decide)⟩

/-- C3: `read()` on a handle whose file has size zero returns the absent
dataset as a success, not an `IOError` or `ParseError`. -/
theorem read_empty_file_absent (h : JS) (fs : FS) (hc : fs.getFile h.path = some []) :
    jsRead h fs = .ok none := by
  unfold jsRead
  rw [hc]
  simp

/-- Witness for C3 on a freshly touched (empty) file. -/
theorem read_empty_file_absent_witness :
    ((⟨[("data.json", [])], []⟩ : FS).getFile (JS.mk "data.json" "r+" true).path =
      some []) ∧
    jsRead ⟨"data.json", "r+", true⟩ ⟨[("data.json", [])], []⟩ = .ok none :=
  ⟨by decide, read_empty_file_absent _ _ (by decide)⟩

/-- C4: `MemoryStorage.read` returns absent before any write, and after any
sequence of writes ending in `write(D)` it returns exactly `D`. -/
theorem memory_read_last_write :
    memRead memInit = none ∧
      ∀ (m0 : Mem) (ws : List Dataset) (D : Dataset),
        memRead (List.foldl memWrite m0 (ws ++ [D])) = some D := by
  refine ⟨rfl, ?_⟩
  intro m0 ws D
  rw [List.foldl_append]
  rfl

/-- C5: constructing a `JSONStorage` with an access mode other than the four
recognized values fails with `InvalidArgument`. -/
theorem invalid_mode_rejected (path : String) (cd : Bool) (mode : String) (fs : FS)
    (h1 : mode ≠ "r") (h2 : mode ≠ "r+") (h3 : mode ≠ "rb") (h4 : mode ≠ "rb+") :
    (jsNew path cd mode fs).1 = .error .invalidArgument := by
  have hv : validMode mode = false := by
    simp [validMode, h1, h2, h3, h4]
  unfold jsNew
  rw [hv]
  simp

/-- Witness for C5: access mode `"x"` is rejected. -/
theorem invalid_mode_rejected_witness :
    (("x" : String) ≠ "r" ∧ ("x" : String) ≠ "r+" ∧ ("x" : String) ≠ "rb" ∧
      ("x" : String) ≠ "rb+") ∧
    (jsNew "data.json" false "x" ⟨[], []⟩).1 = .error .invalidArgument :=
  ⟨⟨by decide, by decide, by decide, by decide⟩,
    invalid_mode_rejected _ _ _ _ (by decide) (by decide) (by decide) (by decide)⟩

/-- C6: constructing with a write/append-intent mode touches the file in
append mode, so construction succeeds and the content of a pre-existing file
is unchanged. -/
theorem write_intent_construction_preserves (path : String) (cd : Bool) (mode : String)
    (fs : FS) (c : List Char) (hm : mode = "r+" ∨ mode = "rb+")
    (hf : fs.getFile path = some c) (hd : path ∉ fs.dirs) :
    (jsNew path cd mode fs).1 = .ok ⟨path, mode, true⟩ ∧
      ((jsNew path cd mode fs).2).getFile path = some c := by
  have hv : validMode mode = true := by
    rcases hm with rfl | rfl <;> rfl
  have hw : wantsWrite mode = true := by
    rcases hm with rfl | rfl <;> rfl
  obtain ⟨fs1, ht, hgf⟩ := touch_existing_file path cd fs c hf hd
  unfold jsNew
  rw [hv, hw]
  simp only [Bool.true_eq_false, not_true, if_false, ite_true, ite_false]
  rw [ht]
  simp only []
  rw [show openFile path fs1 = .ok () from by simp [openFile, FS.fileExists, hgf]]
  exact ⟨rfl, hgf⟩

set_option maxRecDepth 10000 in
/-- Witness for C6: constructing over an existing non-empty file keeps its
content. -/
theorem write_intent_construction_preserves_witness :
    (("r+" : String) = "r+" ∨ ("r+" : String) = "rb+") ∧
    ((⟨[("data.json", "x".data)], []⟩ : FS).getFile "data.json" = some "x".data) ∧
    ("data.json" ∉ (⟨[("data.json", "x".data)], []⟩ : FS).dirs) ∧
    ((jsNew "data.json" true "r+" ⟨[("data.json", "x".data)], []⟩).1 =
        .ok ⟨"data.json", "r+", true⟩ ∧
      ((jsNew "data.json" true "r+" ⟨[("data.json", "x".data)], []⟩).2).getFile
        "data.json" = some "x".data) :=
  ⟨Or.inl rfl, by decide, by decide,
    write_intent_construction_preserves _ _ _ _ _ (Or.inl rfl) (by decide) (by decide)⟩

/-- C7: `close()` is idempotent — closing an already-closed handle is a
no-op and never fails. -/
theorem close_idempotent (h : JS) :
    jsClose (jsClose h) = jsClose h ∧ (jsClose h).isOpen = false := by
  obtain ⟨p, m, o⟩ := h
  cases o <;> simp [jsClose]

set_option maxRecDepth 10000 in
/-- C8: the repository's own example input. `touch("data.json", true)` on a
filesystem without that file takes the whole path as `base_dir` (because
`find_last_of` returns `npos` and `substr(0, npos)` is the entire string),
creates a directory at the path itself, and the subsequent append-mode open
fails with `IOError` — the parent directory is never computed or created. -/
theorem touch_bare_path_code_bug :
    baseDir "data.json" = "data.json" ∧
      touch "data.json" true ⟨[], []⟩ = (.error .ioError, ⟨[], ["data.json"]⟩) :=
  ⟨rfl, rfl⟩

/-- C9: an invalid access mode is rejected before `touch` and before any
open: the filesystem is unchanged and no handle is produced. -/
theorem invalid_mode_no_side_effects (path : String) (cd : Bool) (mode : String) (fs : FS)
    (hv : validMode mode = false) :
    (jsNew path cd mode fs).2 = fs ∧ ∀ hdl : JS, (jsNew path cd mode fs).1 ≠ .ok hdl := by
  unfold jsNew
  rw [hv]
  simp

/-- Witness for C9 at access mode `"x"` with `createDirectories` set. -/
theorem invalid_mode_no_side_effects_witness :
    validMode "x" = false ∧
    ((jsNew "db/data.json" true "x" ⟨[], []⟩).2 = ⟨[], []⟩ ∧
      ∀ hdl : JS, (jsNew "db/data.json" true "x" ⟨[], []⟩).1 ≠ .ok hdl) :=
  ⟨by decide, invalid_mode_no_side_effects _ _ _ _ (by decide)⟩

/-- C10: a read-only mode (`"r"` or `"rb"`) never touches the path — even
with `createDirectories` set nothing is created — and when the file does not
exist the constructor fails with `IOError`, leaving the filesystem as it
was. -/
theorem readonly_missing_file_ioerror (path : String) (cd : Bool) (mode : String) (fs : FS)
    (hm : mode = "r" ∨ mode = "rb") (hf : fs.getFile path = none) :
    jsNew path cd mode fs = (.error .ioError, fs) := by
  have hv : validMode mode = true := by
    rcases hm with rfl | rfl <;> rfl
  have hw : wantsWrite mode = false := by
    rcases hm with rfl | rfl <;> rfl
  unfold jsNew
  rw [hv, hw]
  simp only [Bool.true_eq_false, not_true, if_false, ite_true, ite_false,
    Bool.false_eq_true]
  rw [show openFile path fs = .error .ioError from by simp [openFile, FS.fileExists, hf]]

/-- Witness for C10: mode `"r"` with `createDirectories` on a missing file. -/
theorem readonly_missing_file_ioerror_witness :
    (("r" : String) = "r" ∨ ("r" : String) = "rb") ∧
    ((⟨[], []⟩ : FS).getFile "db/data.json" = none) ∧
    jsNew "db/data.json" true "r" ⟨[], []⟩ = (.error .ioError, ⟨[], []⟩) :=
  ⟨Or.inl rfl, by decide, readonly_missing_file_ioerror _ _ _ _ (Or.inl rfl) (by decide)⟩

end TinyDb
